import Mathlib

/-!
Verification development for the truley-python structured-logging library.

The Python sources embedded here are:
  src/truley_python/logger.py          (base Logger, `_serialize`, `_format_pretty`)
  src/truley_python/console_logger.py  (tracing-aware Logger variant and stdlib bridge)
  src/truley_python/tracing.py         (trace-context provider)

Python dicts are embedded as association lists that keep insertion order:
assignment to an existing key replaces the value in place, assignment to a
fresh key appends, matching CPython dict semantics.  Loguru's `bind` builds
a new extra dict by such assignments, in argument order.
-/

namespace Truley

/-- Keys of an association list, in order. -/
def keys (l : List (String × α)) : List String := l.map Prod.fst

/-- Python dict assignment `d[k] = v`: replace in place if present, else append
(dicts built by the library never hold duplicate keys). -/
def updateAssoc : List (String × α) → String → α → List (String × α)
  | [], k, v => [(k, v)]
  | p :: rest, k, v =>
    if p.1 = k then (k, v) :: rest else p :: updateAssoc rest k v

/-- Python `dict.setdefault(k, v)`: keep the dict if the key is present, else append. -/
def setDefault : List (String × α) → String → α → List (String × α)
  | [], k, v => [(k, v)]
  | p :: rest, k, v =>
    if p.1 = k then p :: rest else p :: setDefault rest k v

/-- Python dict lookup `d.get(k)` (first matching key; lists built by
`updateAssoc` from a dict never hold duplicates). -/
def lookupAssoc (l : List (String × α)) (k : String) : Option α :=
  match l with
  | [] => Option.none
  | (k0, v) :: rest => if k0 = k then some v else lookupAssoc rest k

/-- Loguru `logger.bind(**kwargs)` on top of an existing extra dict:
fold dict assignment over the keyword arguments in order. -/
def bindFields (base : List (String × α)) (kw : List (String × α)) :
    List (String × α) :=
  kw.foldl (fun acc p => updateAssoc acc p.1 p.2) base

/-- The error dict `_log` builds: Python `{"type": ..., "message": ..., "stack": ...}`. -/
structure ErrorDetail where
  type : String
  message : String
  stack : String
  deriving DecidableEq, Repr

/-- A field value a caller can attach to a log call.  Primitive JSON types are
kept as such; the error dict is the only dict shape the library itself stores;
`other` stands for any value `json.dumps` cannot represent directly, carrying
the text `str(value)` that the `default=str` fallback would produce. -/
inductive FieldValue where
  | s (x : String)
  | i (n : Int)
  | b (x : Bool)
  | null
  | errObj (d : ErrorDetail)
  | other (text : String)
  deriving DecidableEq, Repr

/-- A Python exception as `Logger._log` consumes it: its class name
(`type(e).__name__`, a Python identifier, hence non-empty), its `str(e)` text
(possibly empty, e.g. `str(ValueError()) == ""`), and the formatted frame
blocks of `e.__traceback__` (empty list when the traceback is `None`). -/
structure PyException where
  typeName : String
  strForm : String
  tracebackFrames : List String
  deriving DecidableEq, Repr

/-- `traceback.format_exception(type(e), e, e.__traceback__)`: the frame
blocks (preceded by the `Traceback` header when a traceback exists) followed
by the final `Type: message` line (just `Type` when the message is empty). -/
def formatExceptionLines (e : PyException) : List String :=
  (if e.tracebackFrames = [] then []
   else "Traceback (most recent call last):\n" :: e.tracebackFrames)
  ++ [if e.strForm = "" then e.typeName ++ "\n"
      else e.typeName ++ ": " ++ e.strForm ++ "\n"]

/-- The ErrorDetail dict `_log` derives from an exception (logger.py lines 116-125). -/
def errorDetailOf (e : PyException) : ErrorDetail :=
  ⟨e.typeName, e.strForm, String.join (formatExceptionLines e)⟩

/-! ## Trace context provider (tracing.py) -/

/-- An OpenTelemetry span context: raw integer identifiers. -/
structure SpanContext where
  traceId : Nat
  spanId : Nat
  deriving DecidableEq, Repr

/-- OTel `SpanContext.is_valid`: both identifiers differ from the
all-zero invalid values. -/
def SpanContext.isValid (c : SpanContext) : Bool :=
  c.traceId != 0 && c.spanId != 0

/-- Process-wide tracing state: the `_initialized` flag and the currently
active span, if any (`trace.get_current_span()`). -/
structure TracingState where
  initialized : Bool
  currentSpan : Option SpanContext
  deriving DecidableEq, Repr

/-- `is_tracing_enabled` (tracing.py lines 26-28). -/
def isTracingEnabled (st : TracingState) : Bool := st.initialized

/-- Python `format(n, "0{w}x")`: lowercase hex digits of `n`, left-padded
with zeros to width `w`. -/
def hexString (w : Nat) (n : Nat) : String :=
  let ds := (Nat.digits 16 n).reverse.map Nat.digitChar
  String.mk (List.replicate (w - ds.length) '0' ++ ds)

/-- The TraceContext dict: trace and span ids as hex strings. -/
structure TraceContext where
  traceId : String
  spanId : String
  deriving DecidableEq, Repr

/-- `get_current_trace_context` (tracing.py lines 31-49). -/
def getCurrentTraceContext (st : TracingState) : Option TraceContext :=
  if !st.initialized then Option.none
  else
    match st.currentSpan with
    | Option.none => Option.none
    | some ctx =>
      if !ctx.isValid then Option.none
      else some ⟨hexString 32 ctx.traceId, hexString 16 ctx.spanId⟩

/-! ## Logger (logger.py) -/

/-- The six public level methods. -/
inductive LevelMethod where
  | debug | verbose | info | warn | error | fatal
  deriving DecidableEq, Repr

/-- The loguru level name each level method logs at
(logger.py lines 129-149). -/
def loguruLevelName : LevelMethod → String
  | .debug => "DEBUG"
  | .verbose => "DEBUG"
  | .info => "INFO"
  | .warn => "WARNING"
  | .error => "ERROR"
  | .fatal => "CRITICAL"

/-- Extra dict assembled by `Logger._log` of logger.py (lines 105-127):
`service` bound at construction, then the call's keyword fields, then the
derived error dict when an exception was passed.  This variant consults no
tracing state. -/
def loggerLogExtra (service : String) (kwargs : List (String × FieldValue))
    (error : Option PyException) : List (String × FieldValue) :=
  let bound := bindFields [("service", FieldValue.s service)] kwargs
  match error with
  | Option.none => bound
  | some e => updateAssoc bound "error" (FieldValue.errObj (errorDetailOf e))

/-- Extra dict assembled by `Logger._log` of console_logger.py
(lines 107-137): same as `loggerLogExtra` but first auto-injects
`trace_id` / `span_id` via `setdefault` when a trace context is available. -/
def consoleLogExtra (st : TracingState) (service : String)
    (kwargs : List (String × FieldValue)) (error : Option PyException) :
    List (String × FieldValue) :=
  let traceCtx := if isTracingEnabled st then getCurrentTraceContext st else Option.none
  let kwargs1 :=
    match traceCtx with
    | Option.none => kwargs
    | some c =>
      setDefault (setDefault kwargs "trace_id" (FieldValue.s c.traceId))
        "span_id" (FieldValue.s c.spanId)
  let bound := bindFields [("service", FieldValue.s service)] kwargs1
  match error with
  | Option.none => bound
  | some e => updateAssoc bound "error" (FieldValue.errObj (errorDetailOf e))

/-- A loguru record as the sinks see it: the level's name, the event time
(as epoch milliseconds, and as the `%Y-%m-%d %H:%M:%S` text the pretty
formatter renders), the message, and the extra dict. -/
structure LogRecord where
  levelName : String
  timeMillis : Int
  timeText : String
  message : String
  extra : List (String × FieldValue)
  deriving DecidableEq, Repr

/-- The record a level-method call produces. -/
def callRecord (m : LevelMethod) (timeMillis : Int) (timeText : String)
    (message : String) (extra : List (String × FieldValue)) : LogRecord :=
  ⟨loguruLevelName m, timeMillis, timeText, message, extra⟩

/-! ## JSON values -/

/-- An atomic JSON value. -/
inductive JAtom where
  | s (x : String)
  | i (n : Int)
  | b (x : Bool)
  | null
  deriving DecidableEq, Repr

/-- A JSON value as the serializer emits it: an atom, or a one-level object
of atoms (the error dict). -/
inductive JVal where
  | atom (a : JAtom)
  | obj (fields : List (String × JAtom))
  deriving DecidableEq, Repr

/-- How `json.dumps(..., default=str)` represents a field value. -/
def widen : FieldValue → JVal
  | .s x => .atom (.s x)
  | .i n => .atom (.i n)
  | .b x => .atom (.b x)
  | .null => .atom .null
  | .errObj d => .obj [("type", .s d.type), ("message", .s d.message), ("stack", .s d.stack)]
  | .other t => .atom (.s t)

/-- Python `str.lower()` restricted to the per-character ASCII map
(the level names it is applied to are ASCII). -/
def pyLower (s : String) : String := String.mk (s.data.map Char.toLower)

/-- Python `str.upper()` restricted to the per-character ASCII map. -/
def pyUpper (s : String) : String := String.mk (s.data.map Char.toUpper)

/-- The loguru-to-spec level table of `_serialize` (logger.py lines 18-26),
with `dict.get`'s fall-through to the raw name. -/
def levelMapGet (s : String) : String :=
  if s = "trace" then "debug"
  else if s = "debug" then "debug"
  else if s = "info" then "info"
  else if s = "success" then "info"
  else if s = "warning" then "warn"
  else if s = "error" then "error"
  else if s = "critical" then "fatal"
  else s

/-- `extra.get("service", "unknown")` as a JSON value. -/
def serviceVal (extra : List (String × FieldValue)) : JVal :=
  match lookupAssoc extra "service" with
  | some v => widen v
  | Option.none => .atom (.s "unknown")

/-- The JSON object `_serialize` builds (logger.py lines 28-39): the four
header keys, then every extra field except `service` assigned in order. -/
def serializeObj (r : LogRecord) : List (String × JVal) :=
  let base : List (String × JVal) :=
    [("level", .atom (.s (levelMapGet (pyLower r.levelName)))),
     ("time", .atom (.i r.timeMillis)),
     ("msg", .atom (.s r.message)),
     ("service", serviceVal r.extra)]
  r.extra.foldl
    (fun acc p => if p.1 = "service" then acc else updateAssoc acc p.1 (widen p.2))
    base

/-! ## JSON text: printing (mirroring `json.dumps(..., ensure_ascii=False)`) -/

/-- How `json.dumps` escapes one character inside a string literal
(`ensure_ascii=False`: only the two metacharacters and control characters). -/
def escapeChar (c : Char) : List Char :=
  if c = '"' then ['\\', '"']
  else if c = '\\' then ['\\', '\\']
  else if c = '\n' then ['\\', 'n']
  else if c = '\t' then ['\\', 't']
  else if c = '\r' then ['\\', 'r']
  else if c = '\x08' then ['\\', 'b']
  else if c = '\x0c' then ['\\', 'f']
  else if c.toNat < 32 then
    ['\\', 'u', '0', '0', Nat.digitChar (c.toNat / 16), Nat.digitChar (c.toNat % 16)]
  else [c]

/-- Escape every character of a string body. -/
def escapeList (cs : List Char) : List Char :=
  cs.foldr (fun c acc => escapeChar c ++ acc) []

/-- A JSON string literal: quotes around the escaped body. -/
def quoteChars (s : String) : List Char :=
  '"' :: escapeList s.data ++ ['"']

/-- Decimal digits of a natural number, most significant first. -/
def natChars (n : Nat) : List Char :=
  if n = 0 then ['0'] else (Nat.digits 10 n).reverse.map Nat.digitChar

/-- A JSON integer literal. -/
def intChars (n : Int) : List Char :=
  if n < 0 then '-' :: natChars n.natAbs else natChars n.natAbs

/-- An atomic JSON value as text. -/
def atomChars : JAtom → List Char
  | .s x => quoteChars x
  | .i n => intChars n
  | .b true => ['t', 'r', 'u', 'e']
  | .b false => ['f', 'a', 'l', 's', 'e']
  | .null => ['n', 'u', 'l', 'l']

/-- One `"key": value` member, with `json.dumps`'s default `": "` separator. -/
def fieldChars (pv : α → List Char) (p : String × α) : List Char :=
  quoteChars p.1 ++ ':' :: ' ' :: pv p.2

/-- Object members joined by `json.dumps`'s default `", "` separator. -/
def fieldsChars (pv : α → List Char) : List (String × α) → List Char
  | [] => []
  | [p] => fieldChars pv p
  | p :: q :: rest => fieldChars pv p ++ ',' :: ' ' :: fieldsChars pv (q :: rest)

/-- A JSON object as text. -/
def objChars (pv : α → List Char) (l : List (String × α)) : List Char :=
  '\x7b' :: fieldsChars pv l ++ ['\x7d']

/-- A JSON value as text. -/
def jvalChars : JVal → List Char
  | .atom a => atomChars a
  | .obj fs => objChars atomChars fs

/-- The serialized JSON line `_serialize` returns (logger.py line 41). -/
def serializeLine (r : LogRecord) : String :=
  String.mk (objChars jvalChars (serializeObj r))

/-! ## JSON text: parsing (a standard JSON reader for the emitted grammar) -/

/-- Hex digit value of a character, if it is one. -/
def hexVal (c : Char) : Option Nat :=
  if '0' ≤ c && c ≤ '9' then some (c.toNat - 48)
  else if 'a' ≤ c && c ≤ 'f' then some (c.toNat - 87)
  else if 'A' ≤ c && c ≤ 'F' then some (c.toNat - 55)
  else Option.none

/-- Decimal digit test. -/
def isDigitCh (c : Char) : Bool := 48 ≤ c.toNat && c.toNat ≤ 57

/-- JSON whitespace test. -/
def isWsCh (c : Char) : Bool := c = ' ' || c = '\n' || c = '\t' || c = '\r'

/-- Drop leading JSON whitespace. -/
def skipWs : List Char → List Char
  | [] => []
  | c :: rest => if isWsCh c then skipWs rest else c :: rest

/-- Read a string body up to the closing quote, undoing escapes.  Fuel bounds
the recursion; one unit per produced character suffices. -/
def stringBody (fuel : Nat) (cs : List Char) : Option (List Char × List Char) :=
  match fuel, cs with
  | 0, _ => Option.none
  | _ + 1, [] => Option.none
  | f + 1, c :: rest =>
    if c = '"' then some ([], rest)
    else if c = '\\' then
      match rest with
      | [] => Option.none
      | e :: rest2 =>
        if e = '"' then (stringBody f rest2).map (fun p => ('"' :: p.1, p.2))
        else if e = '\\' then (stringBody f rest2).map (fun p => ('\\' :: p.1, p.2))
        else if e = 'n' then (stringBody f rest2).map (fun p => ('\n' :: p.1, p.2))
        else if e = 't' then (stringBody f rest2).map (fun p => ('\t' :: p.1, p.2))
        else if e = 'r' then (stringBody f rest2).map (fun p => ('\r' :: p.1, p.2))
        else if e = 'b' then (stringBody f rest2).map (fun p => ('\x08' :: p.1, p.2))
        else if e = 'f' then (stringBody f rest2).map (fun p => ('\x0c' :: p.1, p.2))
        else if e = 'u' then
          match rest2 with
          | h1 :: h2 :: h3 :: h4 :: rest3 =>
            match hexVal h1, hexVal h2, hexVal h3, hexVal h4 with
            | some a, some b, some c2, some d =>
              (stringBody f rest3).map
                (fun p => (Char.ofNat (((a * 16 + b) * 16 + c2) * 16 + d) :: p.1, p.2))
            | _, _, _, _ => Option.none
          | _ => Option.none
        else Option.none
    else (stringBody f rest).map (fun p => (c :: p.1, p.2))

/-- Read a maximal run of decimal digits. -/
def digitRun : List Char → List Char × List Char
  | [] => ([], [])
  | c :: rest =>
    if isDigitCh c then
      let p := digitRun rest
      (c :: p.1, p.2)
    else ([], c :: rest)

/-- Value of a big-endian digit-character list. -/
def natOfChars (ds : List Char) : Nat :=
  ds.foldl (fun acc c => acc * 10 + (c.toNat - 48)) 0

/-- Read a JSON integer. -/
def intRead (cs : List Char) : Option (Int × List Char) :=
  match cs with
  | [] => Option.none
  | c :: rest =>
    if c = '-' then
      match digitRun rest with
      | ([], _) => Option.none
      | (ds, r) => some (-(natOfChars ds : Int), r)
    else
      match digitRun (c :: rest) with
      | ([], _) => Option.none
      | (ds, r) => some ((natOfChars ds : Int), r)

/-- Read an atomic JSON value.  The fuel only feeds the string reader. -/
def atomRead (f : Nat) (cs : List Char) : Option (JAtom × List Char) :=
  match cs with
  | [] => Option.none
  | c :: rest =>
    if c = '"' then
      (stringBody f rest).map (fun p => (JAtom.s (String.mk p.1), p.2))
    else if c = 't' then
      match rest with
      | 'r' :: 'u' :: 'e' :: r => some (.b true, r)
      | _ => Option.none
    else if c = 'f' then
      match rest with
      | 'a' :: 'l' :: 's' :: 'e' :: r => some (.b false, r)
      | _ => Option.none
    else if c = 'n' then
      match rest with
      | 'u' :: 'l' :: 'l' :: r => some (.null, r)
      | _ => Option.none
    else (intRead (c :: rest)).map (fun p => (JAtom.i p.1, p.2))

/-- Read `"key": value` members until the closing brace (which it consumes).
One fuel unit per member; the input's length plus one always suffices. -/
def fieldsRead (pv : List Char → Option (α × List Char)) :
    Nat → List Char → Option (List (String × α) × List Char)
  | 0, _ => Option.none
  | f + 1, cs =>
    match cs with
    | '"' :: cs1 =>
      match stringBody f cs1 with
      | Option.none => Option.none
      | some (key, cs2) =>
        match skipWs cs2 with
        | ':' :: cs3 =>
          match pv (skipWs cs3) with
          | Option.none => Option.none
          | some (v, cs4) =>
            match skipWs cs4 with
            | ',' :: cs5 =>
              match fieldsRead pv f (skipWs cs5) with
              | Option.none => Option.none
              | some (more, cs6) => some ((String.mk key, v) :: more, cs6)
            | '\x7d' :: cs5 => some ([(String.mk key, v)], cs5)
            | _ => Option.none
        | _ => Option.none
    | _ => Option.none

/-- Read a JSON object (consuming both braces). -/
def objRead (pv : List Char → Option (α × List Char)) (f : Nat) (cs : List Char) :
    Option (List (String × α) × List Char) :=
  match cs with
  | [] => Option.none
  | c :: rest =>
    if c = '\x7b' then
      match skipWs rest with
      | '\x7d' :: r => some ([], r)
      | rest2 => fieldsRead pv f rest2
    else Option.none

/-- Read a JSON value of the emitted grammar: an atom or an object of atoms. -/
def jvalRead (f : Nat) (cs : List Char) : Option (JVal × List Char) :=
  match cs with
  | [] => Option.none
  | c :: rest =>
    if c = '\x7b' then
      (objRead (atomRead f) f (c :: rest)).map (fun p => (JVal.obj p.1, p.2))
    else (atomRead f (c :: rest)).map (fun p => (JVal.atom p.1, p.2))

/-- Parse one emitted log line back into its JSON object. -/
def docParse (s : String) : Option (List (String × JVal)) :=
  match objRead (jvalRead (s.data.length + 1)) (s.data.length + 1) (skipWs s.data) with
  | some (doc, rest) => if skipWs rest = [] then some doc else Option.none
  | Option.none => Option.none

/-! ## Pretty formatter (`_format_pretty`, logger.py lines 44-64) -/

/-- Python `str(...)` of a field value, for the generic pretty line.  The
dict branch follows Python dict repr shape; quote selection inside repr is
approximated with plain single quotes (no claim exercises this branch: the
library stores the error dict only under the key `"error"`). -/
def pyStr : FieldValue → String
  | .s x => x
  | .i n => toString n
  | .b x => if x then "True" else "False"
  | .null => "None"
  | .errObj d =>
    "\x7b'type': '" ++ d.type ++ "', 'message': '" ++ d.message ++
      "', 'stack': '" ++ d.stack ++ "'\x7d"
  | .other t => t

/-- The three-block rendering of an error dict (logger.py lines 55-60),
with the stack block only when `value.get("stack")` is truthy. -/
def errorBlockLines (d : ErrorDetail) : List String :=
  ["    error.type: " ++ d.type, "    error.message: " ++ d.message] ++
    (if d.stack = "" then []
     else "    error.stack:" ::
       (d.stack.trim.splitOn "\n").map (fun l => "        " ++ l))

/-- The indented per-field lines of the pretty block, in insertion order. -/
def prettyFieldLines : List (String × FieldValue) → List String
  | [] => []
  | (k, v) :: rest =>
    (if k = "error" then
      match v with
      | .errObj d => errorBlockLines d
      | w => ["    " ++ k ++ ": " ++ pyStr w]
     else ["    " ++ k ++ ": " ++ pyStr v]) ++ prettyFieldLines rest

/-- `_format_pretty`: the bracketed header line (raw loguru level name,
uppercased) followed by one line per extra field. -/
def formatPretty (r : LogRecord) : String :=
  String.intercalate "\n"
    (("[" ++ r.timeText ++ "] " ++ pyUpper r.levelName ++ ": " ++ r.message)
      :: prettyFieldLines r.extra)

/-! ## Stdlib bridge (`InterceptHandler`, console_logger.py lines 186-210) -/

/-- A stdlib `logging.LogRecord` as `emit` consumes it. -/
structure StdlibRecord where
  name : String
  module : String
  levelno : Nat
  message : String
  deriving DecidableEq, Repr

/-- The numeric-level table of `InterceptHandler.emit` with `dict.get`'s
`"info"` default (stdlib constants: DEBUG 10, INFO 20, WARNING 30,
ERROR 40, CRITICAL 50). -/
def stdlibLevelMap (levelno : Nat) : String :=
  if levelno = 10 then "debug"
  else if levelno = 20 then "info"
  else if levelno = 30 then "warn"
  else if levelno = 40 then "error"
  else if levelno = 50 then "fatal"
  else "info"

/-- The Logger call `emit` replays: the chosen level-method name, the
record's message, and the two attribution keyword fields. -/
def interceptEmit (r : StdlibRecord) :
    String × String × List (String × FieldValue) :=
  (stdlibLevelMap r.levelno, r.message,
    [("logger_name", FieldValue.s r.name), ("module", FieldValue.s r.module)])

/-! ## Module surface of tracing.py and the console variant's constructor -/

/-- The names the module `truley_python.tracing` defines at top level
(tracing.py lines 15-107). -/
def tracingModuleNames : List String :=
  ["os", "TypedDict", "_initialized", "TraceContext", "is_tracing_enabled",
   "get_current_trace_context", "init_tracing"]

/-- Outcome of `from truley_python.tracing import name`. -/
inductive PyImport where
  | ok
  | importError
  deriving DecidableEq, Repr

/-- `from truley_python.tracing import name`: succeeds exactly when the
module defines the name. -/
def importFromTracing (name : String) : PyImport :=
  if name ∈ tracingModuleNames then .ok else .importError

/-- `Logger.__init__` of console_logger.py (lines 83-105): its first
statement imports `get_service_name` from `truley_python.tracing`; when
that fails the constructor raises and never reaches handler setup. -/
def consoleLoggerInit (level : LevelMethod) (pretty : Bool) :
    Except String (LevelMethod × Bool) :=
  match importFromTracing "get_service_name" with
  | .importError =>
    .error "ImportError: cannot import name get_service_name from truley_python.tracing"
  | .ok => .ok (level, pretty)

/-- `create_logger` of console_logger.py (lines 162-183) just calls the
constructor. -/
def consoleCreateLogger (level : LevelMethod) (pretty : Bool) :
    Except String (LevelMethod × Bool) :=
  consoleLoggerInit level pretty

/-- The per-field assignments `_serialize`'s loop performs, as a list:
every extra field except `service`, with its value widened. -/
def extraFieldsOf : List (String × FieldValue) → List (String × JVal)
  | [] => []
  | p :: rest =>
    if p.1 = "service" then extraFieldsOf rest
    else (p.1, widen p.2) :: extraFieldsOf rest

/-- The sixteen lowercase hex digit characters, 0-9 then a-f. -/
def lowercaseHexDigits : List Char := (List.range 16).map Nat.digitChar

/-- The five level strings the JSON schema can emit through the level methods. -/
def canonicalLevels : List String := ["debug", "info", "warn", "error", "fatal"]

/-! ## Association-list lemmas -/

theorem keys_nil : keys ([] : List (String × α)) = [] := rfl

theorem keys_cons (p : String × α) (l : List (String × α)) :
    keys (p :: l) = p.1 :: keys l := rfl

theorem keys_append (l1 l2 : List (String × α)) :
    keys (l1 ++ l2) = keys l1 ++ keys l2 := by
  simp [keys]

theorem lookupAssoc_nil (k : String) :
    lookupAssoc ([] : List (String × α)) k = Option.none := rfl

theorem lookupAssoc_cons (k0 : String) (v : α) (rest : List (String × α)) (k : String) :
    lookupAssoc ((k0, v) :: rest) k = if k0 = k then some v else lookupAssoc rest k := rfl

theorem updateAssoc_nil (k : String) (v : α) :
    updateAssoc ([] : List (String × α)) k v = [(k, v)] := rfl

theorem updateAssoc_cons (p : String × α) (rest : List (String × α)) (k : String) (v : α) :
    updateAssoc (p :: rest) k v =
      if p.1 = k then (k, v) :: rest else p :: updateAssoc rest k v := rfl

theorem setDefault_nil (k : String) (v : α) :
    setDefault ([] : List (String × α)) k v = [(k, v)] := rfl

theorem setDefault_cons (p : String × α) (rest : List (String × α)) (k : String) (v : α) :
    setDefault (p :: rest) k v =
      if p.1 = k then p :: rest else p :: setDefault rest k v := rfl

theorem bindFields_nil (base : List (String × α)) : bindFields base [] = base := rfl

theorem bindFields_cons (base : List (String × α)) (p : String × α)
    (kw : List (String × α)) :
    bindFields base (p :: kw) = bindFields (updateAssoc base p.1 p.2) kw := rfl

theorem lookupAssoc_eq_none_iff (l : List (String × α)) (k : String) :
    lookupAssoc l k = Option.none ↔ k ∉ keys l := by
  induction l with
  | nil => simp [lookupAssoc_nil, keys_nil]
  | cons p rest ih =>
    obtain ⟨k0, v⟩ := p
    rw [keys_cons, lookupAssoc_cons]
    by_cases h : k0 = k
    · subst h
      simp
    · rw [if_neg h, ih]
      simp only [List.mem_cons]
      constructor
      · intro hn hc
        rcases hc with hc | hc
        · exact h hc.symm
        · exact hn hc
      · intro hn hc
        exact hn (Or.inr hc)

theorem lookup_updateAssoc_self (l : List (String × α)) (k : String) (v : α) :
    lookupAssoc (updateAssoc l k v) k = some v := by
  induction l with
  | nil => simp [updateAssoc_nil, lookupAssoc_cons]
  | cons p rest ih =>
    rw [updateAssoc_cons]
    by_cases h : p.1 = k
    · rw [if_pos h, lookupAssoc_cons, if_pos rfl]
    · rw [if_neg h]
      obtain ⟨k0, w⟩ := p
      rw [lookupAssoc_cons, if_neg h, ih]

theorem lookup_updateAssoc_ne (l : List (String × α)) (k k' : String) (v : α)
    (h : k' ≠ k) : lookupAssoc (updateAssoc l k v) k' = lookupAssoc l k' := by
  have hkk : k ≠ k' := fun he => h he.symm
  induction l with
  | nil => simp [updateAssoc_nil, lookupAssoc_cons, lookupAssoc_nil, hkk]
  | cons p rest ih =>
    obtain ⟨k0, w⟩ := p
    rw [updateAssoc_cons]
    by_cases hp : k0 = k
    · subst hp
      rw [if_pos rfl, lookupAssoc_cons, lookupAssoc_cons, if_neg hkk, if_neg hkk]
    · rw [if_neg hp, lookupAssoc_cons, lookupAssoc_cons, ih]

theorem keys_updateAssoc_of_mem (l : List (String × α)) (k : String) (v : α)
    (h : k ∈ keys l) : keys (updateAssoc l k v) = keys l := by
  induction l with
  | nil => simp [keys_nil] at h
  | cons p rest ih =>
    rw [updateAssoc_cons]
    by_cases hp : p.1 = k
    · rw [if_pos hp, keys_cons, keys_cons, hp]
    · rw [if_neg hp, keys_cons, keys_cons, ih]
      rw [keys_cons, List.mem_cons] at h
      rcases h with h | h
      · exact absurd h.symm hp
      · exact h

theorem keys_updateAssoc_of_not_mem (l : List (String × α)) (k : String) (v : α)
    (h : k ∉ keys l) : keys (updateAssoc l k v) = keys l ++ [k] := by
  induction l with
  | nil => simp [updateAssoc_nil, keys_nil, keys_cons]
  | cons p rest ih =>
    rw [keys_cons, List.mem_cons] at h
    push_neg at h
    rw [updateAssoc_cons, if_neg (fun hp => h.1 hp.symm), keys_cons, keys_cons,
      ih h.2, List.cons_append]

theorem keys_bindFields_subset (base : List (String × α)) (kw : List (String × α)) :
    keys (bindFields base kw) ⊆ keys base ++ keys kw := by
  induction kw generalizing base with
  | nil => simp [bindFields_nil]
  | cons p rest ih =>
    rw [bindFields_cons, keys_cons]
    intro x hx
    have hx2 := ih (updateAssoc base p.1 p.2) hx
    rw [List.mem_append] at hx2
    rcases hx2 with hx2 | hx2
    · by_cases hm : p.1 ∈ keys base
      · rw [keys_updateAssoc_of_mem _ _ _ hm] at hx2
        simp [hx2]
      · rw [keys_updateAssoc_of_not_mem _ _ _ hm, List.mem_append] at hx2
        rcases hx2 with hx2 | hx2
        · simp [hx2]
        · simp at hx2
          simp [hx2]
    · simp [hx2]

theorem not_mem_keys_bindFields (base : List (String × α)) (kw : List (String × α))
    (k : String) (hb : k ∉ keys base) (hk : k ∉ keys kw) :
    k ∉ keys (bindFields base kw) := by
  intro hmem
  rcases List.mem_append.mp (keys_bindFields_subset base kw hmem) with h | h
  · exact hb h
  · exact hk h

theorem lookup_bindFields_not_mem (base : List (String × α)) (kw : List (String × α))
    (k : String) (h : k ∉ keys kw) :
    lookupAssoc (bindFields base kw) k = lookupAssoc base k := by
  induction kw generalizing base with
  | nil => rfl
  | cons p rest ih =>
    rw [keys_cons, List.mem_cons] at h
    push_neg at h
    rw [bindFields_cons, ih _ h.2, lookup_updateAssoc_ne _ _ _ _ h.1]

theorem lookup_bindFields_mem (base : List (String × α)) (kw : List (String × α))
    (k : String) (v : α) (hnd : (keys kw).Nodup) (hmem : (k, v) ∈ kw) :
    lookupAssoc (bindFields base kw) k = some v := by
  induction kw generalizing base with
  | nil => simp at hmem
  | cons p rest ih =>
    rw [keys_cons, List.nodup_cons] at hnd
    rcases List.mem_cons.mp hmem with he | hm
    · subst he
      rw [bindFields_cons]
      have hno : k ∉ keys rest := by
        intro hk
        exact hnd.1 (by simpa using hk)
      rw [lookup_bindFields_not_mem _ _ _ hno]
      exact lookup_updateAssoc_self _ _ _
    · rw [bindFields_cons]
      exact ih _ hnd.2 hm

theorem keys_setDefault_of_mem (l : List (String × α)) (k : String) (v : α)
    (h : k ∈ keys l) : setDefault l k v = l := by
  induction l with
  | nil => simp [keys_nil] at h
  | cons p rest ih =>
    rw [setDefault_cons]
    by_cases hp : p.1 = k
    · rw [if_pos hp]
    · rw [keys_cons, List.mem_cons] at h
      rcases h with h | h
      · exact absurd h.symm hp
      · rw [if_neg hp, ih h]

theorem setDefault_of_not_mem (l : List (String × α)) (k : String) (v : α)
    (h : k ∉ keys l) : setDefault l k v = l ++ [(k, v)] := by
  induction l with
  | nil => simp [setDefault_nil]
  | cons p rest ih =>
    rw [keys_cons, List.mem_cons] at h
    push_neg at h
    rw [setDefault_cons, if_neg (fun hp => h.1 hp.symm), ih h.2, List.cons_append]

/-! ## Serializer-object lemmas -/

theorem serializeObj_eq_bindFields (r : LogRecord) :
    serializeObj r =
      bindFields
        [("level", JVal.atom (.s (levelMapGet (pyLower r.levelName)))),
         ("time", JVal.atom (.i r.timeMillis)),
         ("msg", JVal.atom (.s r.message)),
         ("service", serviceVal r.extra)]
        (extraFieldsOf r.extra) := by
  show r.extra.foldl _ _ = _
  generalize [("level", JVal.atom (.s (levelMapGet (pyLower r.levelName)))),
    ("time", JVal.atom (.i r.timeMillis)),
    ("msg", JVal.atom (.s r.message)),
    ("service", serviceVal r.extra)] = base
  induction r.extra generalizing base with
  | nil => rfl
  | cons p rest ih =>
    by_cases h : p.1 = "service"
    · rw [List.foldl_cons, if_pos h]
      rw [extraFieldsOf, if_pos h]
      exact ih base
    · rw [List.foldl_cons, if_neg h]
      rw [extraFieldsOf, if_neg h, bindFields_cons]
      exact ih (updateAssoc base p.1 (widen p.2))

theorem keys_extraFieldsOf_subset (l : List (String × FieldValue)) :
    keys (extraFieldsOf l) ⊆ keys l := by
  induction l with
  | nil => simp [extraFieldsOf, keys_nil]
  | cons p rest ih =>
    rw [extraFieldsOf, keys_cons]
    by_cases h : p.1 = "service"
    · rw [if_pos h]
      exact fun x hx => List.mem_cons_of_mem _ (ih hx)
    · rw [if_neg h, keys_cons]
      intro x hx
      rcases List.mem_cons.mp hx with hx | hx
      · exact hx ▸ List.mem_cons_self _ _
      · exact List.mem_cons_of_mem _ (ih hx)

theorem service_not_mem_extraFieldsOf (l : List (String × FieldValue)) :
    "service" ∉ keys (extraFieldsOf l) := by
  induction l with
  | nil => simp [extraFieldsOf, keys_nil]
  | cons p rest ih =>
    rw [extraFieldsOf]
    by_cases h : p.1 = "service"
    · rw [if_pos h]
      exact ih
    · rw [if_neg h, keys_cons]
      intro hc
      rcases List.mem_cons.mp hc with hc | hc
      · exact h hc.symm
      · exact ih hc

theorem keys_extraFieldsOf_nodup (l : List (String × FieldValue))
    (h : (keys l).Nodup) : (keys (extraFieldsOf l)).Nodup := by
  induction l with
  | nil => simp [extraFieldsOf, keys_nil]
  | cons p rest ih =>
    rw [keys_cons, List.nodup_cons] at h
    rw [extraFieldsOf]
    by_cases hp : p.1 = "service"
    · rw [if_pos hp]
      exact ih h.2
    · rw [if_neg hp, keys_cons, List.nodup_cons]
      exact ⟨fun hc => h.1 (keys_extraFieldsOf_subset rest hc), ih h.2⟩

theorem mem_extraFieldsOf (l : List (String × FieldValue)) (k : String) (v : FieldValue)
    (hmem : (k, v) ∈ l) (hk : k ≠ "service") : (k, widen v) ∈ extraFieldsOf l := by
  induction l with
  | nil => simp at hmem
  | cons p rest ih =>
    rw [extraFieldsOf]
    rcases List.mem_cons.mp hmem with he | hm
    · subst he
      rw [if_neg hk]
      exact List.mem_cons_self _ _
    · by_cases hp : p.1 = "service"
      · rw [if_pos hp]
        exact ih hm
      · rw [if_neg hp]
        exact List.mem_cons_of_mem _ (ih hm)

theorem lookup_serializeObj_level (r : LogRecord) (h : "level" ∉ keys r.extra) :
    lookupAssoc (serializeObj r) "level" =
      some (JVal.atom (.s (levelMapGet (pyLower r.levelName)))) := by
  rw [serializeObj_eq_bindFields,
    lookup_bindFields_not_mem _ _ _ (fun hc => h (keys_extraFieldsOf_subset _ hc))]
  simp [lookupAssoc_cons]

theorem lookup_serializeObj_msg (r : LogRecord) (h : "msg" ∉ keys r.extra) :
    lookupAssoc (serializeObj r) "msg" = some (JVal.atom (.s r.message)) := by
  rw [serializeObj_eq_bindFields,
    lookup_bindFields_not_mem _ _ _ (fun hc => h (keys_extraFieldsOf_subset _ hc))]
  simp [lookupAssoc_cons]

theorem lookup_serializeObj_service (r : LogRecord) :
    lookupAssoc (serializeObj r) "service" = some (serviceVal r.extra) := by
  rw [serializeObj_eq_bindFields,
    lookup_bindFields_not_mem _ _ _ (service_not_mem_extraFieldsOf _)]
  simp [lookupAssoc_cons]

theorem lookup_serializeObj_mem (r : LogRecord) (k : String) (v : FieldValue)
    (hnd : (keys r.extra).Nodup) (hmem : (k, v) ∈ r.extra) (hk : k ≠ "service") :
    lookupAssoc (serializeObj r) k = some (widen v) := by
  rw [serializeObj_eq_bindFields]
  exact lookup_bindFields_mem _ _ _ _ (keys_extraFieldsOf_nodup _ hnd)
    (mem_extraFieldsOf _ _ _ hmem hk)

/-! ## Digit and character lemmas -/

theorem digitChar_isDigit : ∀ d < 10, isDigitCh (Nat.digitChar d) = true := by decide

theorem digitChar_val : ∀ d < 10, (Nat.digitChar d).toNat - 48 = d := by decide

theorem hexVal_digitChar : ∀ d < 16, hexVal (Nat.digitChar d) = some d := by decide

theorem isDigitCh_bounds (c : Char) (h : isDigitCh c = true) :
    48 ≤ c.toNat ∧ c.toNat ≤ 57 := by
  simpa [isDigitCh] using h

theorem digit_ne_quote (c : Char) (h : isDigitCh c = true) : c ≠ '"' := by
  intro he
  subst he
  exact absurd (isDigitCh_bounds _ h) (by decide)

theorem digit_ne_t (c : Char) (h : isDigitCh c = true) : c ≠ 't' := by
  intro he
  subst he
  exact absurd (isDigitCh_bounds _ h) (by decide)

theorem digit_ne_f (c : Char) (h : isDigitCh c = true) : c ≠ 'f' := by
  intro he
  subst he
  exact absurd (isDigitCh_bounds _ h) (by decide)

theorem digit_ne_n (c : Char) (h : isDigitCh c = true) : c ≠ 'n' := by
  intro he
  subst he
  exact absurd (isDigitCh_bounds _ h) (by decide)

theorem digit_ne_minus (c : Char) (h : isDigitCh c = true) : c ≠ '-' := by
  intro he
  subst he
  exact absurd (isDigitCh_bounds _ h) (by decide)

theorem digit_ne_lbrace (c : Char) (h : isDigitCh c = true) : c ≠ '\x7b' := by
  intro he
  subst he
  exact absurd (isDigitCh_bounds _ h) (by decide)

theorem digit_not_ws (c : Char) (h : isDigitCh c = true) : isWsCh c = false := by
  have hb := isDigitCh_bounds c h
  unfold isWsCh
  have h1 : c ≠ ' ' := by
    intro he
    subst he
    exact absurd hb (by decide)
  have h2 : c ≠ '\n' := by
    intro he
    subst he
    exact absurd hb (by decide)
  have h3 : c ≠ '\t' := by
    intro he
    subst he
    exact absurd hb (by decide)
  have h4 : c ≠ '\r' := by
    intro he
    subst he
    exact absurd hb (by decide)
  simp [h1, h2, h3, h4]

theorem notDigit_comma : isDigitCh ',' = false := by decide

theorem notDigit_rbrace : isDigitCh '\x7d' = false := by decide

/-! ## Decimal printing and parsing -/

theorem natChars_ne_nil (n : Nat) : natChars n ≠ [] := by
  unfold natChars
  by_cases h : n = 0
  · simp [h]
  · rw [if_neg h]
    simp [Nat.digits_ne_nil_iff_ne_zero.mpr h]

theorem natChars_digits (n : Nat) : ∀ c ∈ natChars n, isDigitCh c = true := by
  unfold natChars
  by_cases h : n = 0
  · simp [h]
    decide
  · rw [if_neg h]
    intro c hc
    rw [List.mem_map] at hc
    obtain ⟨d, hd, rfl⟩ := hc
    rw [List.mem_reverse] at hd
    exact digitChar_isDigit d (Nat.digits_lt_base (by norm_num) hd)

theorem foldl_digitChars (ds : List Nat) (h : ∀ d ∈ ds, d < 10) (a : Nat) :
    (ds.reverse.map Nat.digitChar).foldl (fun acc c => acc * 10 + (c.toNat - 48)) a
      = a * 10 ^ ds.length + Nat.ofDigits 10 ds := by
  induction ds generalizing a with
  | nil => simp [Nat.ofDigits_nil]
  | cons d tl ih =>
    have hd : d < 10 := h d (List.mem_cons_self _ _)
    have htl : ∀ x ∈ tl, x < 10 := fun x hx => h x (List.mem_cons_of_mem _ hx)
    rw [List.reverse_cons, List.map_append, List.foldl_append, ih htl]
    simp [Nat.ofDigits_cons, digitChar_val d hd, Nat.cast_id]
    ring

theorem natOfChars_natChars (n : Nat) : natOfChars (natChars n) = n := by
  unfold natChars natOfChars
  by_cases h : n = 0
  · simp [h]
  · rw [if_neg h]
    have := foldl_digitChars (Nat.digits 10 n)
      (fun d hd => Nat.digits_lt_base (by norm_num) hd) 0
    simpa [Nat.ofDigits_digits] using this

theorem digitRun_append (ds rest : List Char) (hds : ∀ c ∈ ds, isDigitCh c = true)
    (hrest : ∀ c, rest.head? = some c → isDigitCh c = false) :
    digitRun (ds ++ rest) = (ds, rest) := by
  induction ds with
  | nil =>
    cases rest with
    | nil => rfl
    | cons c r =>
      have := hrest c rfl
      simp [digitRun, this]
  | cons c tl ih =>
    have hc := hds c (List.mem_cons_self _ _)
    simp [digitRun, hc, ih (fun x hx => hds x (List.mem_cons_of_mem _ hx))]

theorem intRead_intChars (n : Int) (rest : List Char)
    (hrest : ∀ c, rest.head? = some c → isDigitCh c = false) :
    intRead (intChars n ++ rest) = some (n, rest) := by
  unfold intChars
  by_cases hn : n < 0
  · rw [if_pos hn]
    rw [List.cons_append]
    obtain ⟨c, cs, hcc⟩ := List.exists_cons_of_ne_nil (natChars_ne_nil n.natAbs)
    have hdr : digitRun (natChars n.natAbs ++ rest) = (natChars n.natAbs, rest) :=
      digitRun_append _ _ (natChars_digits _) hrest
    simp only [intRead, if_pos rfl]
    rw [hdr, hcc]
    simp only []
    rw [← hcc, natOfChars_natChars]
    have : -((n.natAbs : Int)) = n := by omega
    rw [this]
    simp
  · rw [if_neg hn]
    obtain ⟨c, cs, hcc⟩ := List.exists_cons_of_ne_nil (natChars_ne_nil n.natAbs)
    have hc : isDigitCh c = true := by
      apply natChars_digits n.natAbs
      rw [hcc]
      exact List.mem_cons_self _ _
    have hdr : digitRun (natChars n.natAbs ++ rest) = (natChars n.natAbs, rest) :=
      digitRun_append _ _ (natChars_digits _) hrest
    rw [hcc, List.cons_append]
    simp only [intRead, digit_ne_minus c hc, if_neg, if_false]
    rw [← List.cons_append, ← hcc, hdr, hcc]
    simp only []
    rw [← hcc, natOfChars_natChars]
    have : ((n.natAbs : Int)) = n := by omega
    rw [this]

/-! ## String-literal printing and parsing -/

theorem escapeList_nil : escapeList [] = [] := rfl

theorem escapeList_cons (c : Char) (cs : List Char) :
    escapeList (c :: cs) = escapeChar c ++ escapeList cs := rfl

theorem escapeChar_length_pos (c : Char) : 0 < (escapeChar c).length := by
  unfold escapeChar
  repeat' split
  all_goals simp

theorem stringBody_escape (s : List Char) : ∀ (f : Nat) (rest : List Char),
    (escapeList s).length + 1 ≤ f →
    stringBody f (escapeList s ++ '"' :: rest) = some (s, rest) := by
  induction s with
  | nil =>
    intro f rest hf
    obtain ⟨f', rfl⟩ : ∃ g, f = g + 1 := ⟨f - 1, by omega⟩
    rw [escapeList_nil, List.nil_append]
    simp [stringBody]
  | cons c cs ih =>
    intro f rest hf
    rw [escapeList_cons] at hf ⊢
    obtain ⟨f', rfl⟩ : ∃ g, f = g + 1 := ⟨f - 1, by omega⟩
    have hlen : (escapeList cs).length + 1 ≤ f' := by
      have hp := escapeChar_length_pos c
      rw [List.length_append] at hf
      omega
    have hih := ih f' rest hlen
    by_cases h1 : c = '"'
    · subst h1
      show stringBody (f' + 1) ((['\\', '"'] ++ escapeList cs) ++ '"' :: rest) = _
      simp [stringBody, hih]
    · by_cases h2 : c = '\\'
      · subst h2
        show stringBody (f' + 1) ((['\\', '\\'] ++ escapeList cs) ++ '"' :: rest) = _
        simp [stringBody, hih]
      · by_cases h3 : c = '\n'
        · subst h3
          show stringBody (f' + 1) ((['\\', 'n'] ++ escapeList cs) ++ '"' :: rest) = _
          simp [stringBody, hih]
        · by_cases h4 : c = '\t'
          · subst h4
            show stringBody (f' + 1) ((['\\', 't'] ++ escapeList cs) ++ '"' :: rest) = _
            simp [stringBody, hih]
          · by_cases h5 : c = '\r'
            · subst h5
              show stringBody (f' + 1)
                ((['\\', 'r'] ++ escapeList cs) ++ '"' :: rest) = _
              simp [stringBody, hih]
            · by_cases h6 : c = '\x08'
              · subst h6
                show stringBody (f' + 1)
                  ((['\\', 'b'] ++ escapeList cs) ++ '"' :: rest) = _
                simp [stringBody, hih]
              · by_cases h7 : c = '\x0c'
                · subst h7
                  show stringBody (f' + 1)
                    ((['\\', 'f'] ++ escapeList cs) ++ '"' :: rest) = _
                  simp [stringBody, hih]
                · by_cases h8 : c.toNat < 32
                  · have hesc : escapeChar c =
                        ['\\', 'u', '0', '0', Nat.digitChar (c.toNat / 16),
                          Nat.digitChar (c.toNat % 16)] := by
                      unfold escapeChar
                      rw [if_neg h1, if_neg h2, if_neg h3, if_neg h4, if_neg h5,
                        if_neg h6, if_neg h7, if_pos h8]
                    rw [hesc]
                    have e1 : hexVal (Nat.digitChar (c.toNat / 16)) =
                        some (c.toNat / 16) := hexVal_digitChar _ (by omega)
                    have e2 : hexVal (Nat.digitChar (c.toNat % 16)) =
                        some (c.toNat % 16) := hexVal_digitChar _ (by omega)
                    have hv : ((0 * 16 + 0) * 16 + c.toNat / 16) * 16 + c.toNat % 16
                        = c.toNat := by omega
                    have hv2 : c.toNat / 16 * 16 + c.toNat % 16 = c.toNat := by
                      omega
                    have e0 : hexVal '0' = some 0 := by decide
                    simp [stringBody, e0, e1, e2, hih, hv, hv2, Char.ofNat_toNat]
                  · have hesc : escapeChar c = [c] := by
                      unfold escapeChar
                      rw [if_neg h1, if_neg h2, if_neg h3, if_neg h4, if_neg h5,
                        if_neg h6, if_neg h7, if_neg h8]
                    rw [hesc]
                    simp [stringBody, h1, h2, hih]

/-! ## Whitespace and head-character lemmas -/

theorem mk_data (s : String) : String.mk s.data = s := rfl

theorem skipWs_cons_not_ws (c : Char) (l : List Char) (h : isWsCh c = false) :
    skipWs (c :: l) = c :: l := by
  simp [skipWs, h]

theorem skipWs_cons_ws (c : Char) (l : List Char) (h : isWsCh c = true) :
    skipWs (c :: l) = skipWs l := by
  simp [skipWs, h]

theorem natChars_head (n : Nat) :
    ∃ c cs, natChars n = c :: cs ∧ isDigitCh c = true := by
  obtain ⟨c, cs, hcc⟩ := List.exists_cons_of_ne_nil (natChars_ne_nil n)
  refine ⟨c, cs, hcc, ?_⟩
  apply natChars_digits n
  rw [hcc]
  exact List.mem_cons_self _ _

theorem atomChars_head (a : JAtom) :
    ∃ c cs, atomChars a = c :: cs ∧ isWsCh c = false ∧ c ≠ '\x7b' := by
  cases a with
  | s x => exact ⟨'"', _, rfl, by decide, by decide⟩
  | i n =>
    show ∃ c cs, intChars n = c :: cs ∧ _
    unfold intChars
    by_cases hn : n < 0
    · rw [if_pos hn]
      exact ⟨'-', _, rfl, by decide, by decide⟩
    · rw [if_neg hn]
      obtain ⟨c, cs, hcc, hc⟩ := natChars_head n.natAbs
      exact ⟨c, cs, hcc, digit_not_ws _ hc, digit_ne_lbrace _ hc⟩
  | b x => cases x
           · exact ⟨'f', _, rfl, by decide, by decide⟩
           · exact ⟨'t', _, rfl, by decide, by decide⟩
  | null => exact ⟨'n', _, rfl, by decide, by decide⟩

theorem jvalChars_head (v : JVal) :
    ∃ c cs, jvalChars v = c :: cs ∧ isWsCh c = false := by
  cases v with
  | atom a =>
    obtain ⟨c, cs, hcc, hws, _⟩ := atomChars_head a
    exact ⟨c, cs, hcc, hws⟩
  | obj fs => exact ⟨'\x7b', _, rfl, by decide⟩

/-! ## Atom parsing round-trip -/

theorem atomRead_atomChars (a : JAtom) (f : Nat) (rest : List Char)
    (hf : (atomChars a).length ≤ f)
    (hrest : ∀ c, rest.head? = some c → isDigitCh c = false) :
    atomRead f (atomChars a ++ rest) = some (a, rest) := by
  cases a with
  | s x =>
    have hsb : stringBody f (escapeList x.data ++ '"' :: rest) = some (x.data, rest) := by
      apply stringBody_escape
      have : (atomChars (JAtom.s x)).length = (escapeList x.data).length + 2 := by
        simp [atomChars, quoteChars]
      omega
    show atomRead f (('"' :: escapeList x.data ++ ['"']) ++ rest) = _
    simp [atomRead, hsb, mk_data]
  | i n =>
    have hir := intRead_intChars n rest hrest
    show atomRead f (intChars n ++ rest) = _
    unfold intChars at hir ⊢
    by_cases hn : n < 0
    · rw [if_pos hn] at hir ⊢
      rw [List.cons_append] at hir ⊢
      simp [atomRead, hir]
    · rw [if_neg hn] at hir ⊢
      obtain ⟨c, cs, hcc, hc⟩ := natChars_head n.natAbs
      rw [hcc] at hir ⊢
      rw [List.cons_append] at hir ⊢
      simp [atomRead, hir, digit_ne_quote _ hc, digit_ne_t _ hc, digit_ne_f _ hc,
        digit_ne_n _ hc]
  | b x =>
    cases x
    · show atomRead f (('f' :: ['a', 'l', 's', 'e']) ++ rest) = _
      simp [atomRead]
    · show atomRead f (('t' :: ['r', 'u', 'e']) ++ rest) = _
      simp [atomRead]
  | null =>
    show atomRead f (('n' :: ['u', 'l', 'l']) ++ rest) = _
    simp [atomRead]

/-! ## Object parsing round-trip -/

theorem sep_head_not_digit (rest : List Char)
    (h : rest.head? = some ',' ∨ rest.head? = some '\x7d') :
    ∀ c, rest.head? = some c → isDigitCh c = false := by
  intro c hc
  rcases h with h | h <;> rw [h] at hc <;> simp at hc <;> rw [← hc] <;> decide

theorem fieldsChars_cons_head (pr : α → List Char) (p : String × α)
    (tl : List (String × α)) :
    ∃ cs, fieldsChars pr (p :: tl) = '"' :: cs := by
  cases tl with
  | nil =>
    exact ⟨escapeList p.1.data ++ '"' :: ':' :: ' ' :: pr p.2,
      by simp [fieldsChars, fieldChars, quoteChars]⟩
  | cons q tl2 =>
    exact ⟨escapeList p.1.data ++ '"' :: ':' :: ' ' ::
        (pr p.2 ++ ',' :: ' ' :: fieldsChars pr (q :: tl2)),
      by simp [fieldsChars, fieldChars, quoteChars]⟩

theorem objChars_length (pr : α → List Char) (l : List (String × α)) :
    (objChars pr l).length = (fieldsChars pr l).length + 2 := by
  simp [objChars]

theorem value_length_le_fieldsChars (pr : α → List Char) (fs : List (String × α))
    (k : String) (a : α) (h : (k, a) ∈ fs) :
    (pr a).length ≤ (fieldsChars pr fs).length := by
  induction fs with
  | nil => simp at h
  | cons p tl ih =>
    have hhead : (pr p.2).length ≤ (fieldsChars pr (p :: tl)).length := by
      cases tl with
      | nil =>
        simp [fieldsChars, fieldChars]
        omega
      | cons q tl2 =>
        show (pr p.2).length ≤
          (fieldChars pr p ++ ',' :: ' ' :: fieldsChars pr (q :: tl2)).length
        simp [fieldChars]
        omega
    rcases List.mem_cons.mp h with he | hm
    · have ha : a = p.2 := by rw [← he]
      rw [ha]
      exact hhead
    · cases tl with
      | nil => simp at hm
      | cons q tl2 =>
        have htail : (fieldsChars pr (q :: tl2)).length ≤
            (fieldsChars pr (p :: q :: tl2)).length := by
          show _ ≤ (fieldChars pr p ++ ',' :: ' ' :: fieldsChars pr (q :: tl2)).length
          simp
          omega
        exact le_trans (ih hm) htail

theorem fieldsRead_chars (pv : List Char → Option (α × List Char))
    (pr : α → List Char) :
    ∀ (fs : List (String × α)) (f : Nat) (rest : List Char),
      (∀ k a, (k, a) ∈ fs → ∀ rest2 : List Char,
        (rest2.head? = some ',' ∨ rest2.head? = some '\x7d') →
        pv (skipWs (pr a ++ rest2)) = some (a, rest2)) →
      fs ≠ [] → (fieldsChars pr fs).length + 1 ≤ f →
      fieldsRead pv f (fieldsChars pr fs ++ '\x7d' :: rest) = some (fs, rest) := by
  intro fs
  induction fs with
  | nil =>
    intro f rest _ hne _
    exact absurd rfl hne
  | cons p tl ih =>
    intro f rest hpv _ hf
    obtain ⟨f', rfl⟩ : ∃ g, f = g + 1 := ⟨f - 1, by omega⟩
    obtain ⟨k0, a0⟩ := p
    cases tl with
    | nil =>
      simp only [fieldsChars, fieldChars, quoteChars, List.length_append,
        List.length_cons, List.cons_append, List.nil_append] at hf
      have hsb : stringBody f'
          (escapeList k0.data ++ '"' :: (':' :: ' ' :: (pr a0 ++ '\x7d' :: rest)))
          = some (k0.data, ':' :: ' ' :: (pr a0 ++ '\x7d' :: rest)) :=
        stringBody_escape _ _ _ (by omega)
      have hv : pv (skipWs (pr a0 ++ '\x7d' :: rest)) = some (a0, '\x7d' :: rest) :=
        hpv k0 a0 (List.mem_cons_self _ _) _ (Or.inr rfl)
      have hshape : fieldsChars pr [(k0, a0)] ++ '\x7d' :: rest
          = '"' :: (escapeList k0.data ++ '"' :: (':' :: ' ' :: (pr a0 ++ '\x7d' :: rest))) := by
        simp [fieldsChars, fieldChars, quoteChars]
      rw [hshape]
      simp [fieldsRead, hsb, hv, skipWs, isWsCh, mk_data]
    | cons q tl2 =>
      simp only [fieldsChars, fieldChars, quoteChars, List.length_append,
        List.length_cons, List.cons_append, List.nil_append] at hf
      have hsb : stringBody f'
          (escapeList k0.data ++ '"' ::
            (':' :: ' ' :: (pr a0 ++ ',' :: ' ' :: (fieldsChars pr (q :: tl2) ++ '\x7d' :: rest))))
          = some (k0.data,
            ':' :: ' ' :: (pr a0 ++ ',' :: ' ' :: (fieldsChars pr (q :: tl2) ++ '\x7d' :: rest))) :=
        stringBody_escape _ _ _ (by omega)
      have hv : pv (skipWs (pr a0 ++ ',' :: ' ' :: (fieldsChars pr (q :: tl2) ++ '\x7d' :: rest)))
          = some (a0, ',' :: ' ' :: (fieldsChars pr (q :: tl2) ++ '\x7d' :: rest)) :=
        hpv k0 a0 (List.mem_cons_self _ _) _ (Or.inl rfl)
      have hih : fieldsRead pv f' (fieldsChars pr (q :: tl2) ++ '\x7d' :: rest)
          = some (q :: tl2, rest) :=
        ih f' rest (fun k a hm => hpv k a (List.mem_cons_of_mem _ hm))
          (by simp) (by omega)
      obtain ⟨cs0, hcs⟩ := fieldsChars_cons_head pr q tl2
      have hsk : skipWs (fieldsChars pr (q :: tl2) ++ '\x7d' :: rest)
          = fieldsChars pr (q :: tl2) ++ '\x7d' :: rest := by
        rw [hcs, List.cons_append]
        exact skipWs_cons_not_ws _ _ (by decide)
      have hshape : fieldsChars pr ((k0, a0) :: q :: tl2) ++ '\x7d' :: rest
          = '"' :: (escapeList k0.data ++ '"' ::
            (':' :: ' ' :: (pr a0 ++ ',' :: ' ' :: (fieldsChars pr (q :: tl2) ++ '\x7d' :: rest)))) := by
        simp [fieldsChars, fieldChars, quoteChars]
      rw [hshape]
      simp [fieldsRead, hsb, hv, hsk, hih, skipWs, isWsCh, mk_data]

theorem objRead_chars (pv : List Char → Option (α × List Char))
    (pr : α → List Char) (fs : List (String × α)) (f : Nat) (rest : List Char)
    (hpv : ∀ k a, (k, a) ∈ fs → ∀ rest2 : List Char,
      (rest2.head? = some ',' ∨ rest2.head? = some '\x7d') →
      pv (skipWs (pr a ++ rest2)) = some (a, rest2))
    (hf : (fieldsChars pr fs).length + 1 ≤ f) :
    objRead pv f (objChars pr fs ++ rest) = some (fs, rest) := by
  cases fs with
  | nil =>
    show objRead pv f (('\x7b' :: fieldsChars pr [] ++ ['\x7d']) ++ rest) = _
    simp [objRead, fieldsChars, skipWs, isWsCh]
  | cons p tl =>
    have hfr := fieldsRead_chars pv pr (p :: tl) f rest hpv (by simp) hf
    obtain ⟨cs0, hcs⟩ := fieldsChars_cons_head pr p tl
    rw [show objChars pr (p :: tl) ++ rest
        = '\x7b' :: (fieldsChars pr (p :: tl) ++ '\x7d' :: rest) by simp [objChars]]
    rw [hcs] at hfr ⊢
    rw [List.cons_append] at hfr ⊢
    simp [objRead, skipWs, isWsCh, hfr]

theorem jvalRead_chars (f : Nat) (v : JVal) (rest : List Char)
    (hf : (jvalChars v).length + 1 ≤ f)
    (hrest : rest.head? = some ',' ∨ rest.head? = some '\x7d') :
    jvalRead f (jvalChars v ++ rest) = some (v, rest) := by
  cases v with
  | atom a =>
    obtain ⟨c, cs, hcc, _, hlb⟩ := atomChars_head a
    have hra := atomRead_atomChars a f rest
      (by
        have : (jvalChars (JVal.atom a)).length = (atomChars a).length := rfl
        omega)
      (sep_head_not_digit rest hrest)
    show jvalRead f (atomChars a ++ rest) = _
    rw [hcc, List.cons_append]
    simp [jvalRead, hlb]
    rw [← List.cons_append, ← hcc, hra]
  | obj fs =>
    have hpv : ∀ k a, (k, a) ∈ fs → ∀ rest2 : List Char,
        (rest2.head? = some ',' ∨ rest2.head? = some '\x7d') →
        atomRead f (skipWs (atomChars a ++ rest2)) = some (a, rest2) := by
      intro k a hm rest2 hsep
      obtain ⟨c, cs, hcc, hws, _⟩ := atomChars_head a
      have hsk : skipWs (atomChars a ++ rest2) = atomChars a ++ rest2 := by
        rw [hcc, List.cons_append]
        exact skipWs_cons_not_ws _ _ hws
      rw [hsk]
      apply atomRead_atomChars a f rest2 _ (sep_head_not_digit rest2 hsep)
      have h1 := value_length_le_fieldsChars atomChars fs k a hm
      have h2 : (jvalChars (JVal.obj fs)).length
          = (fieldsChars atomChars fs).length + 2 := by
        show (objChars atomChars fs).length = _
        exact objChars_length _ _
      omega
    have hob := objRead_chars (atomRead f) atomChars fs f rest hpv
      (by
        have h2 : (jvalChars (JVal.obj fs)).length
            = (fieldsChars atomChars fs).length + 2 := by
          show (objChars atomChars fs).length = _
          exact objChars_length _ _
        omega)
    show jvalRead f (objChars atomChars fs ++ rest) = _
    have hshape : objChars atomChars fs ++ rest
        = '\x7b' :: (fieldsChars atomChars fs ++ '\x7d' :: rest) := by
      simp [objChars]
    rw [hshape]
    rw [hshape] at hob
    simp [jvalRead, hob]

theorem docParse_objChars (doc : List (String × JVal)) :
    docParse (String.mk (objChars jvalChars doc)) = some doc := by
  have hpv : ∀ k v, (k, v) ∈ doc → ∀ rest2 : List Char,
      (rest2.head? = some ',' ∨ rest2.head? = some '\x7d') →
      jvalRead ((objChars jvalChars doc).length + 1) (skipWs (jvalChars v ++ rest2))
        = some (v, rest2) := by
    intro k v hm rest2 hsep
    obtain ⟨c, cs, hcc, hws⟩ := jvalChars_head v
    have hsk : skipWs (jvalChars v ++ rest2) = jvalChars v ++ rest2 := by
      rw [hcc, List.cons_append]
      exact skipWs_cons_not_ws _ _ hws
    rw [hsk]
    refine jvalRead_chars _ v rest2 ?_ hsep
    have h1 := value_length_le_fieldsChars jvalChars doc k v hm
    have h2 := objChars_length jvalChars doc
    omega
  have hobj := objRead_chars (jvalRead ((objChars jvalChars doc).length + 1))
    jvalChars doc ((objChars jvalChars doc).length + 1) [] hpv
    (by
      have h2 := objChars_length jvalChars doc
      omega)
  rw [List.append_nil] at hobj
  unfold docParse
  have hdata : (String.mk (objChars jvalChars doc)).data = objChars jvalChars doc := rfl
  rw [hdata]
  have hsk2 : skipWs (objChars jvalChars doc) = objChars jvalChars doc := by
    show skipWs ('\x7b' :: (fieldsChars jvalChars doc ++ ['\x7d'])) = _
    exact skipWs_cons_not_ws _ _ (by decide)
  rw [hsk2, hobj]
  simp [skipWs]

theorem docParse_serializeLine (r : LogRecord) :
    docParse (serializeLine r) = some (serializeObj r) :=
  docParse_objChars (serializeObj r)

/-! ## Further dictionary lemmas -/

theorem nodup_keys_updateAssoc (l : List (String × α)) (k : String) (v : α)
    (h : (keys l).Nodup) : (keys (updateAssoc l k v)).Nodup := by
  by_cases hm : k ∈ keys l
  · rw [keys_updateAssoc_of_mem _ _ _ hm]
    exact h
  · rw [keys_updateAssoc_of_not_mem _ _ _ hm]
    simp [List.nodup_append, h, hm]

theorem nodup_keys_bindFields (base : List (String × α)) (kw : List (String × α))
    (h : (keys base).Nodup) : (keys (bindFields base kw)).Nodup := by
  induction kw generalizing base with
  | nil => exact h
  | cons p rest ih =>
    rw [bindFields_cons]
    exact ih _ (nodup_keys_updateAssoc _ _ _ h)

theorem not_mem_keys_updateAssoc (l : List (String × α)) (k k' : String) (v : α)
    (h : k ∉ keys l) (hne : k ≠ k') : k ∉ keys (updateAssoc l k' v) := by
  by_cases hm : k' ∈ keys l
  · rw [keys_updateAssoc_of_mem _ _ _ hm]
    exact h
  · rw [keys_updateAssoc_of_not_mem _ _ _ hm]
    intro hc
    rcases List.mem_append.mp hc with hc | hc
    · exact h hc
    · simp at hc
      exact hne hc

theorem lookup_append_not_mem (l1 l2 : List (String × α)) (k : String)
    (h : k ∉ keys l1) : lookupAssoc (l1 ++ l2) k = lookupAssoc l2 k := by
  induction l1 with
  | nil => rfl
  | cons p rest ih =>
    obtain ⟨k0, v⟩ := p
    rw [keys_cons, List.mem_cons] at h
    push_neg at h
    rw [List.cons_append, lookupAssoc_cons, if_neg (fun he => h.1 he.symm), ih h.2]

theorem lookup_setDefault_ne (l : List (String × α)) (k k' : String) (v : α)
    (h : k' ≠ k) : lookupAssoc (setDefault l k v) k' = lookupAssoc l k' := by
  induction l with
  | nil =>
    have hkk : ¬k = k' := fun he => h he.symm
    simp [setDefault_nil, lookupAssoc_cons, lookupAssoc_nil, hkk]
  | cons p rest ih =>
    obtain ⟨k0, w⟩ := p
    rw [setDefault_cons]
    by_cases hp : k0 = k
    · rw [if_pos hp]
    · rw [if_neg hp, lookupAssoc_cons, lookupAssoc_cons, ih]

/-! ## Logger extra-dict lemmas -/

theorem not_mem_keys_loggerLogExtra (service : String)
    (kwargs : List (String × FieldValue)) (error : Option PyException) (k : String)
    (hk : k ∉ keys kwargs) (hs : k ≠ "service") (he : k ≠ "error") :
    k ∉ keys (loggerLogExtra service kwargs error) := by
  have hbase : k ∉ keys [("service", FieldValue.s service)] := by
    simp [keys, hs]
  have hbound := not_mem_keys_bindFields [("service", FieldValue.s service)] kwargs k
    hbase hk
  cases error with
  | none => exact hbound
  | some e =>
    show k ∉ keys (updateAssoc (bindFields _ kwargs) "error" _)
    exact not_mem_keys_updateAssoc _ _ _ _ hbound he

theorem nodup_keys_loggerLogExtra (service : String)
    (kwargs : List (String × FieldValue)) (error : Option PyException) :
    (keys (loggerLogExtra service kwargs error)).Nodup := by
  have hbound := nodup_keys_bindFields [("service", FieldValue.s service)] kwargs
    (by simp [keys])
  cases error with
  | none => exact hbound
  | some e =>
    show (keys (updateAssoc (bindFields _ kwargs) "error" _)).Nodup
    exact nodup_keys_updateAssoc _ _ _ hbound

theorem lookup_loggerLogExtra_error (service : String)
    (kwargs : List (String × FieldValue)) (e : PyException) :
    lookupAssoc (loggerLogExtra service kwargs (some e)) "error"
      = some (FieldValue.errObj (errorDetailOf e)) :=
  lookup_updateAssoc_self _ _ _

/-! ## Error-detail lemmas -/

theorem errorDetailOf_stack_ne_empty (e : PyException) :
    (errorDetailOf e).stack ≠ "" := by
  show String.join (formatExceptionLines e) ≠ ""
  unfold formatExceptionLines
  intro hc
  have hlen := congrArg String.length hc
  rw [show String.join ((if e.tracebackFrames = [] then []
      else "Traceback (most recent call last):\n" :: e.tracebackFrames)
      ++ [if e.strForm = "" then e.typeName ++ "\n"
          else e.typeName ++ ": " ++ e.strForm ++ "\n"])
    = String.join (if e.tracebackFrames = [] then []
      else "Traceback (most recent call last):\n" :: e.tracebackFrames)
      ++ (if e.strForm = "" then e.typeName ++ "\n"
          else e.typeName ++ ": " ++ e.strForm ++ "\n") by simp [String.join]] at hlen
  rw [String.length_append] at hlen
  by_cases hs : e.strForm = ""
  · simp [hs, String.length_append] at hlen
    exact absurd hlen.2.2 (by decide)
  · simp [hs, String.length_append] at hlen
    exact absurd hlen.2.2 (by decide)

/-! ## Hex-rendering lemmas -/

theorem digitChar_mem_hex : ∀ d < 16, Nat.digitChar d ∈ lowercaseHexDigits := by decide

theorem hexString_length (w n : Nat) (h : n < 16 ^ w) : (hexString w n).length = w := by
  have hle : (Nat.digits 16 n).length ≤ w := by
    by_cases h0 : n = 0
    · simp [h0]
    · have hlog : Nat.log 16 n < w := Nat.log_lt_of_lt_pow h0 h
      have hlen := Nat.digits_len 16 n (by norm_num) h0
      omega
  simp [hexString, String.length_mk]
  omega

theorem hexString_chars (w n : Nat) :
    ∀ c ∈ (hexString w n).data, c ∈ lowercaseHexDigits := by
  intro c hc
  have hdata : (hexString w n).data
      = List.replicate (w - ((Nat.digits 16 n).reverse.map Nat.digitChar).length) '0'
        ++ (Nat.digits 16 n).reverse.map Nat.digitChar := rfl
  rw [hdata] at hc
  rcases List.mem_append.mp hc with h | h
  · have := List.eq_of_mem_replicate h
    subst this
    decide
  · rw [List.mem_map] at h
    obtain ⟨d, hd, rfl⟩ := h
    rw [List.mem_reverse] at hd
    exact digitChar_mem_hex d (Nat.digits_lt_base (by norm_num) hd)

/-! ## Trace-context lemmas -/

theorem getCurrentTraceContext_not_init (st : TracingState)
    (h : st.initialized = false) : getCurrentTraceContext st = Option.none := by
  simp [getCurrentTraceContext, h]

theorem getCurrentTraceContext_no_span (st : TracingState)
    (h : st.currentSpan = Option.none) : getCurrentTraceContext st = Option.none := by
  cases hinit : st.initialized <;> simp [getCurrentTraceContext, hinit, h]

theorem getCurrentTraceContext_invalid (st : TracingState) (ctx : SpanContext)
    (hspan : st.currentSpan = some ctx) (hval : ctx.isValid = false) :
    getCurrentTraceContext st = Option.none := by
  cases hinit : st.initialized <;> simp [getCurrentTraceContext, hinit, hspan, hval]

theorem getCurrentTraceContext_valid (st : TracingState) (ctx : SpanContext)
    (hinit : st.initialized = true) (hspan : st.currentSpan = some ctx)
    (hval : ctx.isValid = true) :
    getCurrentTraceContext st
      = some ⟨hexString 32 ctx.traceId, hexString 16 ctx.spanId⟩ := by
  simp [getCurrentTraceContext, hinit, hspan, hval]

theorem isTracingEnabled_of_ctx (st : TracingState) (c : TraceContext)
    (h : getCurrentTraceContext st = some c) : isTracingEnabled st = true := by
  cases hinit : st.initialized with
  | true => simp [isTracingEnabled, hinit]
  | false =>
    rw [getCurrentTraceContext_not_init st hinit] at h
    exact absurd h (by simp)

/-! ## Console-variant trace-injection lemmas -/

theorem consoleLogExtra_ctx_some (st : TracingState) (service : String)
    (kwargs : List (String × FieldValue)) (error : Option PyException)
    (c : TraceContext) (h : getCurrentTraceContext st = some c) :
    consoleLogExtra st service kwargs error
      = loggerLogExtra service
          (setDefault (setDefault kwargs "trace_id" (FieldValue.s c.traceId))
            "span_id" (FieldValue.s c.spanId)) error := by
  have hen : isTracingEnabled st = true := isTracingEnabled_of_ctx st c h
  unfold consoleLogExtra loggerLogExtra
  simp [hen, h]

theorem consoleLogExtra_ctx_none (st : TracingState) (service : String)
    (kwargs : List (String × FieldValue)) (error : Option PyException)
    (h : getCurrentTraceContext st = Option.none) :
    consoleLogExtra st service kwargs error = loggerLogExtra service kwargs error := by
  unfold consoleLogExtra loggerLogExtra
  cases hen : isTracingEnabled st <;> simp [hen, h]

theorem mem_keys_of_mem (l : List (String × α)) (k : String) (v : α)
    (h : (k, v) ∈ l) : k ∈ keys l := by
  have := List.mem_map_of_mem Prod.fst h
  simpa [keys] using this

theorem mem_setDefault_self_of_not_mem (l : List (String × α)) (k : String) (v : α)
    (h : k ∉ keys l) : (k, v) ∈ setDefault l k v := by
  rw [setDefault_of_not_mem _ _ _ h]
  simp

theorem mem_setDefault_of_mem (l : List (String × α)) (k' : String) (w : α)
    (p : String × α) (hp : p ∈ l) : p ∈ setDefault l k' w := by
  by_cases hm : k' ∈ keys l
  · rw [keys_setDefault_of_mem _ _ _ hm]
    exact hp
  · rw [setDefault_of_not_mem _ _ _ hm]
    exact List.mem_append_left _ hp

theorem keys_setDefault_not_mem (l : List (String × α)) (k : String) (v : α)
    (h : k ∉ keys l) : keys (setDefault l k v) = keys l ++ [k] := by
  rw [setDefault_of_not_mem _ _ _ h, keys_append]
  rfl

theorem nodup_keys_setDefault (l : List (String × α)) (k : String) (v : α)
    (h : (keys l).Nodup) : (keys (setDefault l k v)).Nodup := by
  by_cases hm : k ∈ keys l
  · rw [keys_setDefault_of_mem _ _ _ hm]
    exact h
  · rw [keys_setDefault_not_mem _ _ _ hm]
    simp [List.nodup_append, h, hm]

theorem not_mem_keys_setDefault (l : List (String × α)) (k k' : String) (v : α)
    (h : k ∉ keys l) (hne : k ≠ k') : k ∉ keys (setDefault l k' v) := by
  by_cases hm : k' ∈ keys l
  · rw [keys_setDefault_of_mem _ _ _ hm]
    exact h
  · rw [keys_setDefault_not_mem _ _ _ hm]
    intro hc
    rcases List.mem_append.mp hc with hc | hc
    · exact h hc
    · simp at hc
      exact hne hc

theorem lookup_loggerLogExtra_mem (service : String)
    (kwargs : List (String × FieldValue)) (error : Option PyException)
    (k : String) (v : FieldValue) (hnd : (keys kwargs).Nodup)
    (hmem : (k, v) ∈ kwargs) (he : k ≠ "error") :
    lookupAssoc (loggerLogExtra service kwargs error) k = some v := by
  have hbound : lookupAssoc (bindFields [("service", FieldValue.s service)] kwargs) k
      = some v := lookup_bindFields_mem _ _ _ _ hnd hmem
  cases error with
  | none => exact hbound
  | some e =>
    show lookupAssoc (updateAssoc _ "error" _) k = _
    rw [lookup_updateAssoc_ne _ _ _ _ he]
    exact hbound

theorem lookup_loggerLogExtra_not_mem (service : String)
    (kwargs : List (String × FieldValue)) (error : Option PyException) (k : String)
    (hk : k ∉ keys kwargs) (hs : k ≠ "service") (he : k ≠ "error") :
    lookupAssoc (loggerLogExtra service kwargs error) k = Option.none :=
  (lookupAssoc_eq_none_iff _ _).mpr
    (not_mem_keys_loggerLogExtra service kwargs error k hk hs he)

/-! ## Claim theorems -/

/-- Claim C1, counterexample: the base logger.py `Logger._log` performs no trace
injection at all.  With tracing initialized and a valid span active (so a valid
trace context is available), a plain log call's extra dict still carries no
`trace_id` or `span_id` key. -/
theorem C1_base_logger_counterexample :
    isTracingEnabled ⟨true, some ⟨1, 2⟩⟩ = true
    ∧ getCurrentTraceContext ⟨true, some ⟨1, 2⟩⟩
        = some ⟨hexString 32 1, hexString 16 2⟩
    ∧ lookupAssoc (loggerLogExtra "backend" [] Option.none) "trace_id" = Option.none
    ∧ lookupAssoc (loggerLogExtra "backend" [] Option.none) "span_id" = Option.none :=
  ⟨rfl, rfl, rfl, rfl⟩

/-- Claim C1, amended to the console_logger.py variant: its `_log` injects
`trace_id` and `span_id` with the provider's hex strings exactly when a valid
trace context is available and the caller did not supply the key
(caller-supplied values win), and injects nothing when no context is
available. -/
theorem C1_console_trace_injection (st : TracingState) (service : String)
    (kwargs : List (String × FieldValue)) (error : Option PyException)
    (hnd : (keys kwargs).Nodup) :
    (∀ c : TraceContext, getCurrentTraceContext st = some c →
      ("trace_id" ∉ keys kwargs →
        lookupAssoc (consoleLogExtra st service kwargs error) "trace_id"
          = some (FieldValue.s c.traceId))
      ∧ ("span_id" ∉ keys kwargs →
        lookupAssoc (consoleLogExtra st service kwargs error) "span_id"
          = some (FieldValue.s c.spanId))
      ∧ (∀ w, ("trace_id", w) ∈ kwargs →
        lookupAssoc (consoleLogExtra st service kwargs error) "trace_id" = some w)
      ∧ (∀ w, ("span_id", w) ∈ kwargs →
        lookupAssoc (consoleLogExtra st service kwargs error) "span_id" = some w))
    ∧ (getCurrentTraceContext st = Option.none →
      ("trace_id" ∉ keys kwargs →
        lookupAssoc (consoleLogExtra st service kwargs error) "trace_id" = Option.none)
      ∧ ("span_id" ∉ keys kwargs →
        lookupAssoc (consoleLogExtra st service kwargs error) "span_id" = Option.none)) := by
  constructor
  · intro c hc
    rw [consoleLogExtra_ctx_some st service kwargs error c hc]
    have hnd1 : (keys (setDefault kwargs "trace_id" (FieldValue.s c.traceId))).Nodup :=
      nodup_keys_setDefault _ _ _ hnd
    have hnd2 : (keys (setDefault (setDefault kwargs "trace_id" (FieldValue.s c.traceId))
        "span_id" (FieldValue.s c.spanId))).Nodup :=
      nodup_keys_setDefault _ _ _ hnd1
    refine ⟨?_, ?_, ?_, ?_⟩
    · intro ht
      refine lookup_loggerLogExtra_mem _ _ _ _ _ hnd2 ?_ (by decide)
      exact mem_setDefault_of_mem _ _ _ _ (mem_setDefault_self_of_not_mem _ _ _ ht)
    · intro hs
      refine lookup_loggerLogExtra_mem _ _ _ _ _ hnd2 ?_ (by decide)
      have h1 : "span_id" ∉ keys (setDefault kwargs "trace_id" (FieldValue.s c.traceId)) :=
        not_mem_keys_setDefault _ _ _ _ hs (by decide)
      exact mem_setDefault_self_of_not_mem _ _ _ h1
    · intro w hw
      refine lookup_loggerLogExtra_mem _ _ _ _ _ hnd2 ?_ (by decide)
      exact mem_setDefault_of_mem _ _ _ _ (mem_setDefault_of_mem _ _ _ _ hw)
    · intro w hw
      refine lookup_loggerLogExtra_mem _ _ _ _ _ hnd2 ?_ (by decide)
      exact mem_setDefault_of_mem _ _ _ _ (mem_setDefault_of_mem _ _ _ _ hw)
  · intro hc
    rw [consoleLogExtra_ctx_none st service kwargs error hc]
    exact ⟨fun ht => lookup_loggerLogExtra_not_mem _ _ _ _ ht (by decide) (by decide),
      fun hs => lookup_loggerLogExtra_not_mem _ _ _ _ hs (by decide) (by decide)⟩

/-- Witness for C1's amended theorem at concrete states: injection happens
with an active valid span, nothing is injected with tracing uninitialized. -/
theorem C1_console_trace_injection_witness :
    lookupAssoc (consoleLogExtra ⟨true, some ⟨1, 2⟩⟩ "backend" [] Option.none) "trace_id"
      = some (FieldValue.s (hexString 32 1))
    ∧ lookupAssoc (consoleLogExtra ⟨false, Option.none⟩ "backend" [] Option.none) "trace_id"
      = Option.none := by
  constructor
  · exact ((C1_console_trace_injection ⟨true, some ⟨1, 2⟩⟩ "backend" [] Option.none
      (by decide)).1 ⟨hexString 32 1, hexString 16 2⟩ rfl).1 (by decide)
  · exact ((C1_console_trace_injection ⟨false, Option.none⟩ "backend" [] Option.none
      (by decide)).2 rfl).1 (by decide)

/-- Claim C2: every level method's JSON output carries a canonical lowercase
level string, and verbose collapses to the same "debug" as debug. -/
theorem C2_canonical_level_output (m : LevelMethod) (service : String)
    (kwargs : List (String × FieldValue)) (error : Option PyException)
    (t : Int) (tt msg : String) (hlev : "level" ∉ keys kwargs) :
    lookupAssoc (serializeObj (callRecord m t tt msg
        (loggerLogExtra service kwargs error))) "level"
      = some (JVal.atom (JAtom.s (levelMapGet (pyLower (loguruLevelName m)))))
    ∧ levelMapGet (pyLower (loguruLevelName m)) ∈ canonicalLevels
    ∧ levelMapGet (pyLower (loguruLevelName LevelMethod.verbose)) = "debug"
    ∧ levelMapGet (pyLower (loguruLevelName LevelMethod.debug)) = "debug" := by
  refine ⟨?_, ?_, by decide, by decide⟩
  · exact lookup_serializeObj_level _
      (not_mem_keys_loggerLogExtra _ _ _ _ hlev (by decide) (by decide))
  · cases m <;> decide

/-- Witness for C2 at a concrete verbose call. -/
theorem C2_canonical_level_output_witness :
    lookupAssoc (serializeObj (callRecord LevelMethod.verbose 0 "t" "x"
        (loggerLogExtra "backend" [] Option.none))) "level"
      = some (JVal.atom (JAtom.s "debug"))
    ∧ "debug" ∈ canonicalLevels := by
  have h := C2_canonical_level_output LevelMethod.verbose "backend" [] Option.none
    0 "t" "x" (by decide)
  exact ⟨h.1, by decide⟩

/-- Claim C3: the console_logger variant's constructor starts with
`from truley_python.tracing import get_service_name`, tracing.py defines no
such name, so every construction (and `create_logger`) raises ImportError
before any logging can happen. -/
theorem C3_console_constructor_import_error :
    importFromTracing "get_service_name" = PyImport.importError
    ∧ "get_service_name" ∉ tracingModuleNames
    ∧ ∀ (level : LevelMethod) (pretty : Bool),
        consoleCreateLogger level pretty = Except.error
          "ImportError: cannot import name get_service_name from truley_python.tracing" := by
  refine ⟨by decide, by decide, ?_⟩
  intro level pretty
  rfl

/-- Claim C4, counterexample: `error(msg, error=e)` with an exception whose
`str` form is empty (Python's `ValueError()`) emits an error object whose
`message` field is the empty string, against the claim that `message` is
always non-empty. -/
theorem C4_empty_message_counterexample :
    lookupAssoc (loggerLogExtra "svc" [] (some ⟨"ValueError", "", []⟩)) "error"
      = some (FieldValue.errObj ⟨"ValueError", "", "ValueError\n"⟩)
    ∧ (errorDetailOf ⟨"ValueError", "", []⟩).message = "" := by
  constructor
  · decide
  · rfl

/-- Claim C4, amended: the derived error object always overwrites the key
`error`, its `type` equals the exception class name (non-empty for real
Python classes), its `message` equals `str(e)` (which may be empty), and its
`stack` is never empty (the formatted exception always ends with the
`Type: message` line). -/
theorem C4_error_detail_amended (service : String)
    (kwargs : List (String × FieldValue)) (e : PyException)
    (hty : e.typeName ≠ "") :
    lookupAssoc (loggerLogExtra service kwargs (some e)) "error"
      = some (FieldValue.errObj (errorDetailOf e))
    ∧ (errorDetailOf e).type = e.typeName
    ∧ (errorDetailOf e).type ≠ ""
    ∧ (errorDetailOf e).message = e.strForm
    ∧ (errorDetailOf e).stack ≠ "" :=
  ⟨lookup_loggerLogExtra_error _ _ _, rfl, hty, rfl, errorDetailOf_stack_ne_empty e⟩

/-- Witness for C4's amended theorem at a concrete exception with a frame. -/
theorem C4_error_detail_amended_witness :
    lookupAssoc (loggerLogExtra "svc" [("user", FieldValue.s "u1")]
        (some ⟨"RuntimeError", "boom", ["  File x\n"]⟩)) "error"
      = some (FieldValue.errObj (errorDetailOf ⟨"RuntimeError", "boom", ["  File x\n"]⟩))
    ∧ (errorDetailOf ⟨"RuntimeError", "boom", ["  File x\n"]⟩).stack ≠ "" := by
  have h := C4_error_detail_amended "svc" [("user", FieldValue.s "u1")]
    ⟨"RuntimeError", "boom", ["  File x\n"]⟩ (by decide)
  exact ⟨h.1, h.2.2.2.2⟩

/-- Claim C5: serializing a log event to its JSON line and parsing the line
back recovers the whole emitted object, and in it the canonical level, the
message, the service value, and every extra field's (widened) value. -/
theorem C5_json_roundtrip (r : LogRecord)
    (hnd : (keys r.extra).Nodup) (hlev : "level" ∉ keys r.extra)
    (hmsg : "msg" ∉ keys r.extra) :
    docParse (serializeLine r) = some (serializeObj r)
    ∧ lookupAssoc (serializeObj r) "level"
        = some (JVal.atom (JAtom.s (levelMapGet (pyLower r.levelName))))
    ∧ lookupAssoc (serializeObj r) "msg" = some (JVal.atom (JAtom.s r.message))
    ∧ lookupAssoc (serializeObj r) "service" = some (serviceVal r.extra)
    ∧ ∀ k v, (k, v) ∈ r.extra → k ≠ "service" →
        lookupAssoc (serializeObj r) k = some (widen v) := by
  refine ⟨docParse_serializeLine r, lookup_serializeObj_level r hlev,
    lookup_serializeObj_msg r hmsg, lookup_serializeObj_service r, ?_⟩
  intro k v hm hk
  exact lookup_serializeObj_mem r k v hnd hm hk

/-- Witness for C5 at the spec's own example event. -/
theorem C5_json_roundtrip_witness :
    docParse (serializeLine (LogRecord.mk "INFO" 1700000000000 "t" "Meeting created"
        [("service", FieldValue.s "backend"), ("tenantId", FieldValue.s "t-123")]))
      = some (serializeObj (LogRecord.mk "INFO" 1700000000000 "t" "Meeting created"
        [("service", FieldValue.s "backend"), ("tenantId", FieldValue.s "t-123")]))
    ∧ lookupAssoc (serializeObj (LogRecord.mk "INFO" 1700000000000 "t" "Meeting created"
        [("service", FieldValue.s "backend"), ("tenantId", FieldValue.s "t-123")]))
        "tenantId"
      = some (widen (FieldValue.s "t-123")) := by
  have h := C5_json_roundtrip (LogRecord.mk "INFO" 1700000000000 "t" "Meeting created"
    [("service", FieldValue.s "backend"), ("tenantId", FieldValue.s "t-123")])
    (by decide) (by decide) (by decide)
  exact ⟨h.1, h.2.2.2.2 "tenantId" (FieldValue.s "t-123") (by decide) (by decide)⟩

/-- Claim C6, counterexample: in pretty mode the level name on the first line
is the raw loguru level name uppercased, so `warn()` renders `WARNING:` (not
`WARN:`) and `fatal()` renders `CRITICAL:` (not `FATAL:`). -/
theorem C6_pretty_raw_level_counterexample :
    formatPretty (callRecord LevelMethod.warn 0 "2024-01-01 00:00:00" "boom" [])
      = "[2024-01-01 00:00:00] WARNING: boom"
    ∧ formatPretty (callRecord LevelMethod.warn 0 "2024-01-01 00:00:00" "boom" [])
      ≠ "[2024-01-01 00:00:00] WARN: boom"
    ∧ formatPretty (callRecord LevelMethod.fatal 0 "2024-01-01 00:00:00" "boom" [])
      = "[2024-01-01 00:00:00] CRITICAL: boom"
    ∧ formatPretty (callRecord LevelMethod.fatal 0 "2024-01-01 00:00:00" "boom" [])
      ≠ "[2024-01-01 00:00:00] FATAL: boom" := by
  refine ⟨by decide, by decide, by decide, by decide⟩

/-- Claim C6, amended: the pretty header's level name is the raw
underlying-framework (loguru) level name uppercased, never normalized:
warn renders WARNING, fatal renders CRITICAL, verbose renders DEBUG. -/
theorem C6_pretty_level_amended (m : LevelMethod) (t : Int) (tt msg : String)
    (extra : List (String × FieldValue)) :
    formatPretty (callRecord m t tt msg extra)
      = String.intercalate "\n"
          (("[" ++ tt ++ "] " ++ pyUpper (loguruLevelName m) ++ ": " ++ msg)
            :: prettyFieldLines extra)
    ∧ pyUpper (loguruLevelName LevelMethod.warn) = "WARNING"
    ∧ pyUpper (loguruLevelName LevelMethod.fatal) = "CRITICAL"
    ∧ pyUpper (loguruLevelName LevelMethod.verbose) = "DEBUG" :=
  ⟨rfl, by decide, by decide, by decide⟩

/-- Claim C7, counterexample: the pretty block for the claim's example call
also renders a `service` line (the pretty formatter iterates every extra
field, and `service` is bound into the extra dict), so the output is not
exactly the two lines the claim states. -/
theorem C7_pretty_service_line_counterexample :
    formatPretty (callRecord LevelMethod.info 0 "2024-01-01 00:00:00" "hi"
        (loggerLogExtra "backend"
          [("a", FieldValue.s "1"), ("b", FieldValue.s "2")] Option.none))
      = "[2024-01-01 00:00:00] INFO: hi\n    service: backend\n    a: 1\n    b: 2"
    ∧ formatPretty (callRecord LevelMethod.info 0 "2024-01-01 00:00:00" "hi"
        (loggerLogExtra "backend"
          [("a", FieldValue.s "1"), ("b", FieldValue.s "2")] Option.none))
      ≠ "[2024-01-01 00:00:00] INFO: hi\n    a: 1\n    b: 2" := by
  refine ⟨by decide, by decide⟩

/-- Claim C7, amended: the pretty render of `info("hi", a="1", b="2")` is the
header line followed by three indented field lines in insertion order:
the bound `service` first, then `a: 1`, then `b: 2`. -/
theorem C7_pretty_render_amended (service : String) (t : Int) (tt : String) :
    formatPretty (callRecord LevelMethod.info t tt "hi"
        (loggerLogExtra service
          [("a", FieldValue.s "1"), ("b", FieldValue.s "2")] Option.none))
      = String.intercalate "\n"
          ["[" ++ tt ++ "] INFO: hi", "    service: " ++ service,
            "    a: 1", "    b: 2"] := by
  show String.intercalate "\n"
      (("[" ++ tt ++ "] " ++ pyUpper "INFO" ++ ": " ++ "hi")
        :: prettyFieldLines [("service", FieldValue.s service),
          ("a", FieldValue.s "1"), ("b", FieldValue.s "2")]) = _
  simp [prettyFieldLines, pyStr, String.intercalate, String.intercalate.go,
    String.append_assoc, pyUpper]

/-- Claim C8: the stdlib bridge maps foreign severities through a fixed table
onto the canonical levels with unknown levels defaulting to info, and a
WARNING (30) record is replayed as a warn call carrying the origin channel's
`logger_name` and `module`. -/
theorem C8_bridge_level_mapping (r : StdlibRecord) :
    (interceptEmit r).1 ∈ canonicalLevels
    ∧ (r.levelno = 30 →
        interceptEmit r = ("warn", r.message,
          [("logger_name", FieldValue.s r.name), ("module", FieldValue.s r.module)]))
    ∧ (r.levelno ∉ ([10, 20, 30, 40, 50] : List Nat) →
        (interceptEmit r).1 = "info") := by
  refine ⟨?_, ?_, ?_⟩
  · show stdlibLevelMap r.levelno ∈ canonicalLevels
    unfold stdlibLevelMap canonicalLevels
    split_ifs <;> simp
  · intro h30
    show (stdlibLevelMap r.levelno, r.message, _) = _
    rw [h30]
    rfl
  · intro hun
    simp at hun
    show stdlibLevelMap r.levelno = "info"
    unfold stdlibLevelMap
    rw [if_neg hun.1, if_neg hun.2.1, if_neg hun.2.2.1, if_neg hun.2.2.2.1,
      if_neg hun.2.2.2.2]

/-- Witness for C8 at a concrete WARNING record and a concrete custom-level
record. -/
theorem C8_bridge_level_mapping_witness :
    interceptEmit ⟨"uvicorn", "server", 30, "boom"⟩
      = ("warn", "boom", [("logger_name", FieldValue.s "uvicorn"),
          ("module", FieldValue.s "server")])
    ∧ (interceptEmit ⟨"lib", "mod", 25, "note"⟩).1 = "info" := by
  constructor
  · exact (C8_bridge_level_mapping ⟨"uvicorn", "server", 30, "boom"⟩).2.1 rfl
  · exact (C8_bridge_level_mapping ⟨"lib", "mod", 25, "note"⟩).2.2 (by decide)

/-- Claim C9: `get_current_trace_context` returns none when tracing was never
initialized, when no span is active, or when the active span's identifiers
are invalid; otherwise it returns the ids as zero-padded lowercase hex
strings of exactly 32 and 16 characters. -/
theorem C9_trace_context_rendering (st : TracingState) :
    (st.initialized = false → getCurrentTraceContext st = Option.none)
    ∧ (st.currentSpan = Option.none → getCurrentTraceContext st = Option.none)
    ∧ (∀ ctx : SpanContext, st.currentSpan = some ctx → ctx.isValid = false →
        getCurrentTraceContext st = Option.none)
    ∧ (∀ ctx : SpanContext, st.currentSpan = some ctx → st.initialized = true →
        ctx.isValid = true → ctx.traceId < 16 ^ 32 → ctx.spanId < 16 ^ 16 →
        getCurrentTraceContext st
          = some ⟨hexString 32 ctx.traceId, hexString 16 ctx.spanId⟩
        ∧ (hexString 32 ctx.traceId).length = 32
        ∧ (hexString 16 ctx.spanId).length = 16
        ∧ (∀ c ∈ (hexString 32 ctx.traceId).data, c ∈ lowercaseHexDigits)
        ∧ (∀ c ∈ (hexString 16 ctx.spanId).data, c ∈ lowercaseHexDigits)) := by
  refine ⟨getCurrentTraceContext_not_init st, getCurrentTraceContext_no_span st,
    fun ctx hspan hval => getCurrentTraceContext_invalid st ctx hspan hval, ?_⟩
  intro ctx hspan hinit hval htb hsb
  exact ⟨getCurrentTraceContext_valid st ctx hinit hspan hval,
    hexString_length 32 ctx.traceId htb, hexString_length 16 ctx.spanId hsb,
    hexString_chars 32 ctx.traceId, hexString_chars 16 ctx.spanId⟩

/-- Witness for C9 at a concrete initialized state with a valid span. -/
theorem C9_trace_context_rendering_witness :
    getCurrentTraceContext ⟨true, some ⟨5, 7⟩⟩
      = some ⟨hexString 32 5, hexString 16 7⟩
    ∧ (hexString 32 5).length = 32
    ∧ (hexString 16 7).length = 16
    ∧ getCurrentTraceContext ⟨false, some ⟨5, 7⟩⟩ = Option.none := by
  have h := (C9_trace_context_rendering ⟨true, some ⟨5, 7⟩⟩).2.2.2 ⟨5, 7⟩
    rfl rfl (by decide) (by norm_num) (by norm_num)
  have h2 := (C9_trace_context_rendering ⟨false, some ⟨5, 7⟩⟩).1 rfl
  exact ⟨h.1, h.2.1, h.2.2.1, h2⟩

/-- Claim C10: the JSON formatter is total over field values: serialization
always produces a line, and a field value that `json.dumps` cannot represent
directly appears in the emitted object as its textual string form. -/
theorem C10_serializer_total_degrade (r : LogRecord) (k text : String)
    (hnd : (keys r.extra).Nodup) (hmem : (k, FieldValue.other text) ∈ r.extra)
    (hk : k ≠ "service") :
    lookupAssoc (serializeObj r) k = some (JVal.atom (JAtom.s text))
    ∧ widen (FieldValue.other text) = JVal.atom (JAtom.s text)
    ∧ serializeLine r ≠ "" := by
  refine ⟨lookup_serializeObj_mem r k _ hnd hmem hk, rfl, ?_⟩
  intro hc
  have := congrArg String.data hc
  simp [serializeLine, objChars] at this

/-- Witness for C10 with a degraded datetime-like value. -/
theorem C10_serializer_total_degrade_witness :
    lookupAssoc (serializeObj (LogRecord.mk "INFO" 0 "t" "x"
        [("service", FieldValue.s "backend"),
          ("when", FieldValue.other "2024-01-01 00:00:00")])) "when"
      = some (JVal.atom (JAtom.s "2024-01-01 00:00:00"))
    ∧ serializeLine (LogRecord.mk "INFO" 0 "t" "x"
        [("service", FieldValue.s "backend"),
          ("when", FieldValue.other "2024-01-01 00:00:00")]) ≠ "" := by
  have h := C10_serializer_total_degrade (LogRecord.mk "INFO" 0 "t" "x"
    [("service", FieldValue.s "backend"),
      ("when", FieldValue.other "2024-01-01 00:00:00")])
    "when" "2024-01-01 00:00:00" (by decide) (by decide) (by decide)
  exact ⟨h.1, h.2.2⟩
